import Mathlib

/-!
Shallow embedding of the rate-limiting core of the GPT-wrapper backend:

* `RateLimitQuota` / `RateLimitResult`  — app/domain/models/rate_limit_quota.py
* `InMemoryRateLimiter.*`               — fixed-window adapter,
  app/infrastructure/adapters/rate_limiting/rate_limiter.py
* `RedisRateLimiter.*`                  — sliding-window (sorted-set) adapter, same file
* `RateLimiterService.*`                — app/application/services/rate_limiter_service.py

Modelling conventions:
* Python strings are `List Char` (`Str`); `f"{a}:{b}"` is list append with `sep = ':'`;
  `str.startswith` is `List.isPrefixOf`; `f"{n}"` on a non-negative int is `natChars n`
  (decimal digits, fuel-structured so the kernel can evaluate it).
* `time.time()` timestamps and the stored `reset_at` values are integers (`Int`);
  the claims only use ordering and addition of timestamps, never fractional parts.
* The in-memory adapter's `self._limits` dict is a partial map `Store`; Python methods
  become explicit state passing `Store → ... → result × Store`, so absence of writes is
  a provable equality of stores.
* The Redis sorted set for one key stores each request timestamp with score = member,
  so its content is just a set of timestamps, modelled as a duplicate-free `List Int`;
  `zadd`/`zremrangebyscore`/`zcard`/`zrange(0,0)` act on it.  `pipe.expire` only sets a
  TTL on the whole key and never changes the set's members, so it has no counterpart on
  the modelled state.
* `raise` is `Except`: a service call returns `(Except ε α) × Store`, the store component
  being what the Python object's state is after the call (unchanged when the exception
  fires before any adapter access).
-/

abbrev Str := List Char

def sep : Char := ':'

/-- Decimal digit character, `chr(48 + d)` for `0 ≤ d ≤ 9`. -/
def digitChar (d : Nat) : Char := Char.ofNat (48 + d)

/-- Fuel-driven decimal printer; with fuel `> n` it produces the decimal digits of `n`
(most significant first), matching Python `f"{n}"` for non-negative `n`. -/
def natCharsAux : Nat → Nat → List Char
  | 0, _ => []
  | fuel + 1, n =>
    if n < 10 then [digitChar n]
    else natCharsAux fuel (n / 10) ++ [digitChar (n % 10)]

/-- Decimal representation of a natural number as characters, Python `f"{n}"`. -/
def natChars (n : Nat) : Str := natCharsAux (n + 1) n

/-- Evaluation of a digit string back to a number (Horner form); inverse of `natChars`. -/
def charsVal (l : Str) : Nat := l.foldl (fun a c => 10 * a + (c.toNat - 48)) 0

/-- Domain model `RateLimitQuota` (rate_limit_quota.py): usage snapshot for one key. -/
structure RateLimitQuota where
  key : Str
  max_requests : Nat
  used : Nat
  window_seconds : Nat
  reset_at : Int
deriving DecidableEq, Repr

/-- Python `max(0, max_requests - used)`; `Nat` subtraction truncates at zero exactly
like the `max(0, ·)` clamp. -/
def RateLimitQuota.remaining (q : RateLimitQuota) : Nat :=
  q.max_requests - q.used

/-- Python `used >= max_requests`. -/
def RateLimitQuota.is_exceeded (q : RateLimitQuota) : Bool :=
  decide (q.max_requests ≤ q.used)

/-- Domain model `RateLimitResult`: decision plus the quota snapshot. -/
structure RateLimitResult where
  allowed : Bool
  quota : RateLimitQuota
deriving DecidableEq, Repr

def RateLimitResult.remaining (r : RateLimitResult) : Nat := r.quota.remaining

/-- Internal record of the fixed-window adapter: `{'count': int, 'reset_at': float}`. -/
structure LimitRecord where
  count : Nat
  reset_at : Int
deriving DecidableEq, Repr

/-- The in-memory adapter's `self._limits` dictionary. -/
abbrev Store := Str → Option LimitRecord

def emptyStore : Store := fun _ => none

def updateStore (st : Store) (k : Str) (r : LimitRecord) : Store :=
  fun x => if x = k then some r else st x

/-- Compound storage key `f"{key}:{max_requests}:{window_seconds}"` used by the
in-memory adapter. -/
def compoundKey (key : Str) (max_requests window_seconds : Nat) : Str :=
  key ++ [sep] ++ natChars max_requests ++ [sep] ++ natChars window_seconds

/-- Fixed-window `InMemoryRateLimiter.check_limit` (rate_limiter.py lines 106-159).
Looks up or lazily creates the record, rolls the window over when expired, then either
denies (storing the possibly rolled-over record, count unchanged) or increments. -/
def InMemoryRateLimiter.check_limit (st : Store) (key : Str)
    (max_requests window_seconds : Nat) (now : Int) : RateLimitResult × Store :=
  let limit_key := compoundKey key max_requests window_seconds
  let record0 := (st limit_key).getD ⟨0, now + (window_seconds : Int)⟩
  let record1 :=
    if record0.reset_at ≤ now then (⟨0, now + (window_seconds : Int)⟩ : LimitRecord)
    else record0
  if max_requests ≤ record1.count then
    (⟨false, ⟨key, max_requests, record1.count, window_seconds, record1.reset_at⟩⟩,
     updateStore st limit_key record1)
  else
    (⟨true, ⟨key, max_requests, record1.count + 1, window_seconds, record1.reset_at⟩⟩,
     updateStore st limit_key ⟨record1.count + 1, record1.reset_at⟩)

/-- Fixed-window `InMemoryRateLimiter.get_quota` (lines 161-205): three read-only
branches (missing record, expired window, live record); the method body contains no
write to `self._limits`, hence the unchanged store in the pair. -/
def InMemoryRateLimiter.get_quota (st : Store) (key : Str)
    (max_requests window_seconds : Nat) (now : Int) : RateLimitQuota × Store :=
  let limit_key := compoundKey key max_requests window_seconds
  match st limit_key with
  | none => (⟨key, max_requests, 0, window_seconds, now + (window_seconds : Int)⟩, st)
  | some r =>
    if r.reset_at ≤ now then
      (⟨key, max_requests, 0, window_seconds, now + (window_seconds : Int)⟩, st)
    else
      (⟨key, max_requests, r.count, window_seconds, r.reset_at⟩, st)

/-- Fixed-window `InMemoryRateLimiter.reset_limit` (lines 207-222): zero the count of
every stored record whose compound key starts with `f"{key}:"`. -/
def InMemoryRateLimiter.reset_limit (st : Store) (key : Str) : Store :=
  fun lk =>
    match st lk with
    | none => none
    | some r =>
      if (key ++ [sep]).isPrefixOf lk then some ⟨0, r.reset_at⟩ else some r

/-- Iterated `check_limit` calls on one key, collecting the results. -/
def InMemoryRateLimiter.checkSeq (st : Store) (key : Str)
    (max_requests window_seconds : Nat) : List Int → List RateLimitResult × Store
  | [] => ([], st)
  | t :: ts =>
    let p := InMemoryRateLimiter.check_limit st key max_requests window_seconds t
    let q := InMemoryRateLimiter.checkSeq p.2 key max_requests window_seconds ts
    (p.1 :: q.1, q.2)

/-- Redis backing state: for each redis key, the sorted set of (timestamp = member =
score) entries.  Member and score coincide in the source (`pipe.zadd(redis_key,
{now: now})`), so the set is fully described by its members. -/
abbrev RStore := Str → List Int

def emptyRStore : RStore := fun _ => []

def updateRStore (st : RStore) (k : Str) (s : List Int) : RStore :=
  fun x => if x = k then s else st x

/-- Redis storage key `f"rate_limit:{key}:{max_requests}:{window_seconds}"`. -/
def redisKey (key : Str) (max_requests window_seconds : Nat) : Str :=
  ("rate_limit:".toList) ++ key ++ [sep] ++ natChars max_requests
    ++ [sep] ++ natChars window_seconds

/-- Redis `ZADD key {t: t}`: adds member `t`; re-adding an existing member (same score,
since member = score) leaves the set unchanged. -/
def zadd (s : List Int) (t : Int) : List Int :=
  if t ∈ s then s else t :: s

/-- Redis `ZREMRANGEBYSCORE key lo hi`: removes every member with score in `[lo, hi]`. -/
def zremrangebyscore (s : List Int) (lo hi : Int) : List Int :=
  s.filter (fun t => !(decide (lo ≤ t) && decide (t ≤ hi)))

/-- Sliding-window `RedisRateLimiter.check_limit` (rate_limiter.py lines 243-302):
pipeline `zadd` / `zremrangebyscore 0 (now - window)` / `zcard` / `expire`, then reads
the oldest surviving member for `reset_at`; allowed iff the post-insertion count does
not exceed `max_requests` (`used_count > max_requests` denies). -/
def RedisRateLimiter.check_limit (st : RStore) (key : Str)
    (max_requests window_seconds : Nat) (now : Int) : RateLimitResult × RStore :=
  let redis_key := redisKey key max_requests window_seconds
  let s1 := zadd (st redis_key) now
  let s2 := zremrangebyscore s1 0 (now - (window_seconds : Int))
  let used_count := s2.length
  let st' := updateRStore st redis_key s2
  let reset_at :=
    match s2.min? with
    | some oldest => oldest + (window_seconds : Int)
    | none => now + (window_seconds : Int)
  (⟨decide (used_count ≤ max_requests),
    ⟨key, max_requests, used_count, window_seconds, reset_at⟩⟩, st')

/-- Sliding-window `RedisRateLimiter.get_quota` (lines 304-349): pipeline
`zremrangebyscore 0 (now - window)` / `zcard` (no `zadd`, no `expire`), then reads the
oldest surviving member for `reset_at`. -/
def RedisRateLimiter.get_quota (st : RStore) (key : Str)
    (max_requests window_seconds : Nat) (now : Int) : RateLimitQuota × RStore :=
  let redis_key := redisKey key max_requests window_seconds
  let s1 := zremrangebyscore (st redis_key) 0 (now - (window_seconds : Int))
  let used_count := s1.length
  let st' := updateRStore st redis_key s1
  let reset_at :=
    match s1.min? with
    | some oldest => oldest + (window_seconds : Int)
    | none => now + (window_seconds : Int)
  (⟨key, max_requests, used_count, window_seconds, reset_at⟩, st')

/-- Per-resource-type limit configuration entry `{'max_requests': _, 'window_seconds': _}`. -/
structure Limits where
  max_requests : Nat
  window_seconds : Nat
deriving DecidableEq, Repr

/-- The service's `self._default_limits` mapping. -/
abbrev Config := Str → Option Limits

/-- Seed configuration from `RateLimiterService.__init__`: `api` 100/60s, `gpt` 10/60s. -/
def defaultLimits : Config := fun rt =>
  if rt = "api".toList then some ⟨100, 60⟩
  else if rt = "gpt".toList then some ⟨10, 60⟩
  else none

/-- Message of the `ValueError` raised on unknown resource types. -/
def unknownResourceMsg (rt : Str) : Str := ("Unknown resource type: ".toList) ++ rt

/-- Namespaced key `f"{resource_type}:{key}"` built by the service. -/
def nsKey (resource_type key : Str) : Str := resource_type ++ [sep] ++ key

/-- Errors the service layer can raise: `ValueError` on unknown resource type, and
`RateLimitExceededError` carrying the denying quota (rate_limiter.py lines 17-37). -/
inductive ServiceError where
  | configError : Str → ServiceError
  | rateLimitExceeded : RateLimitQuota → ServiceError
deriving DecidableEq, Repr

/-- `RateLimiterService.check_and_update` (rate_limiter_service.py lines 46-68) over the
in-memory adapter: `ValueError` (store untouched) when `resource_type` is unregistered,
otherwise delegates `check_limit` on the namespaced key with the registered limits. -/
def RateLimiterService.check_and_update (cfg : Config) (st : Store) (key resource_type : Str)
    (now : Int) : (Except Str RateLimitResult) × Store :=
  match cfg resource_type with
  | none => (.error (unknownResourceMsg resource_type), st)
  | some limits =>
    let p := InMemoryRateLimiter.check_limit st (nsKey resource_type key)
      limits.max_requests limits.window_seconds now
    (.ok p.1, p.2)

/-- `RateLimiterService.get_quota` (lines 70-92) over the in-memory adapter. -/
def RateLimiterService.get_quota (cfg : Config) (st : Store) (key resource_type : Str)
    (now : Int) : (Except Str RateLimitQuota) × Store :=
  match cfg resource_type with
  | none => (.error (unknownResourceMsg resource_type), st)
  | some limits =>
    let p := InMemoryRateLimiter.get_quota st (nsKey resource_type key)
      limits.max_requests limits.window_seconds now
    (.ok p.1, p.2)

/-- `RateLimiterService.reset_limit` (lines 94-107): a truthy `resource_type` selects the
namespaced key, otherwise the bare key, and the adapter reset is called on it.  Python's
`if resource_type:` is falsy for both `None` and the empty string. -/
def RateLimiterService.reset_limit (st : Store) (key : Str) (resource_type : Option Str) :
    Store :=
  let p :=
    match resource_type with
    | some rt => if rt.isEmpty then key else nsKey rt key
    | none => key
  InMemoryRateLimiter.reset_limit st p

/-- `RateLimiterService.update_limit_config` (lines 109-121): upsert one resource type. -/
def RateLimiterService.update_limit_config (cfg : Config) (resource_type : Str)
    (max_requests window_seconds : Nat) : Config :=
  fun rt => if rt = resource_type then some ⟨max_requests, window_seconds⟩ else cfg rt

/-- Iterated `check_and_update` calls for one `(key, resource_type)` pair, keeping only
the evolving store. -/
def RateLimiterService.checkSeq (cfg : Config) (st : Store) (key resource_type : Str) :
    List Int → Store
  | [] => st
  | t :: ts =>
    RateLimiterService.checkSeq cfg
      (RateLimiterService.check_and_update cfg st key resource_type t).2 key resource_type ts

/-- `RateLimiterService.with_rate_limiting` (lines 123-153): the produced wrapper derives
the key via `key_func`, runs `check_and_update`, and on denial either raises
`RateLimitExceededError` with the denying quota or returns the `None` sentinel; only
when allowed does it invoke `func`.  Python values that may be `None` are `Option β`,
with `none` playing the role of `None`. -/
def RateLimiterService.with_rate_limiting {α β : Type} (cfg : Config)
    (func : α → Option β) (key_func : α → Str) (resource_type : Str)
    (raise_on_limit : Bool) (st : Store) (args : α) (now : Int) :
    (Except ServiceError (Option β)) × Store :=
  let key := key_func args
  match RateLimiterService.check_and_update cfg st key resource_type now with
  | (.error e, st') => (.error (.configError e), st')
  | (.ok result, st') =>
    if result.allowed then (.ok (func args), st')
    else if raise_on_limit then (.error (.rateLimitExceeded result.quota), st')
    else (.ok none, st')

/-- Operations any client can perform against the in-memory adapter; used to describe
reachable adapter states. -/
inductive AdapterOp where
  | check (key : Str) (max_requests window_seconds : Nat) (now : Int)
  | quota (key : Str) (max_requests window_seconds : Nat) (now : Int)
  | reset (key : Str)
deriving Repr

def applyOp (st : Store) : AdapterOp → Store
  | .check k m w t => (InMemoryRateLimiter.check_limit st k m w t).2
  | .quota k m w t => (InMemoryRateLimiter.get_quota st k m w t).2
  | .reset k => InMemoryRateLimiter.reset_limit st k

def runOps (st : Store) (ops : List AdapterOp) : Store := ops.foldl applyOp st

/-! Auxiliary lemmas about the decimal printer and compound keys. -/

lemma digitChar_toNat : ∀ d, d < 10 → (digitChar d).toNat - 48 = d := by decide

lemma digitChar_ne_sep : ∀ d, d < 10 → digitChar d ≠ sep := by decide

lemma natCharsAux_foldl :
    ∀ fuel n, n < fuel → ∀ a,
      List.foldl (fun a c => 10 * a + (c.toNat - 48)) a (natCharsAux fuel n) =
        a * 10 ^ (natCharsAux fuel n).length + n := by
  intro fuel
  induction fuel with
  | zero => intro n hn; omega
  | succ fuel ih =>
    intro n hn a
    by_cases hsmall : n < 10
    · simp [natCharsAux, hsmall, digitChar_toNat n hsmall]
      omega
    · have hdiv : n / 10 < fuel := by
        have h1 : 0 < n := by omega
        have h2 : n / 10 < n := Nat.div_lt_self h1 (by omega)
        omega
      have heq : natCharsAux (fuel + 1) n =
          natCharsAux fuel (n / 10) ++ [digitChar (n % 10)] := by
        simp [natCharsAux, hsmall]
      rw [heq, List.foldl_append, List.foldl_cons, List.foldl_nil,
        ih (n / 10) hdiv a, digitChar_toNat (n % 10) (Nat.mod_lt n (by omega)),
        List.length_append, List.length_singleton,
        pow_succ 10 (natCharsAux fuel (n / 10)).length]
      have hmod : 10 * (n / 10) + n % 10 = n := Nat.div_add_mod n 10
      linarith [hmod]

lemma charsVal_natChars (n : Nat) : charsVal (natChars n) = n := by
  have h := natCharsAux_foldl (n + 1) n (Nat.lt_succ_self n) 0
  simpa [charsVal, natChars] using h

lemma natChars_inj {m n : Nat} (h : natChars m = natChars n) : m = n := by
  have := congrArg charsVal h
  rwa [charsVal_natChars, charsVal_natChars] at this

lemma sep_not_mem_natCharsAux : ∀ fuel n, sep ∉ natCharsAux fuel n := by
  intro fuel
  induction fuel with
  | zero => intro n h; simp [natCharsAux] at h
  | succ fuel ih =>
    intro n h
    by_cases hsmall : n < 10
    · simp [natCharsAux, hsmall] at h
      exact digitChar_ne_sep n hsmall h.symm
    · simp only [natCharsAux, if_neg hsmall, List.mem_append, List.mem_cons,
        List.not_mem_nil, or_false] at h
      rcases h with h | h
      · exact ih (n / 10) h
      · exact digitChar_ne_sep (n % 10) (Nat.mod_lt n (by omega)) h.symm

lemma sep_not_mem_natChars (n : Nat) : sep ∉ natChars n :=
  sep_not_mem_natCharsAux (n + 1) n

/-- Splitting a string at a separator whose right part is separator-free is unambiguous. -/
lemma colonSplit :
    ∀ {x : Str} {y u v : Str}, sep ∉ u → sep ∉ v →
      x ++ sep :: u = y ++ sep :: v → x = y ∧ u = v := by
  intro x
  induction x with
  | nil =>
    intro y u v hu hv h
    cases y with
    | nil => simpa using h
    | cons b ys =>
      exfalso
      simp only [List.nil_append, List.cons_append, List.cons.injEq] at h
      exact hu (h.2 ▸ List.mem_append_right ys (List.mem_cons_self sep v))
  | cons a xs ih =>
    intro y u v hu hv h
    cases y with
    | nil =>
      exfalso
      simp only [List.nil_append, List.cons_append, List.cons.injEq] at h
      exact hv (h.2.symm ▸ List.mem_append_right xs (List.mem_cons_self sep u))
    | cons b ys =>
      simp only [List.cons_append, List.cons.injEq] at h
      obtain ⟨rfl, h2⟩ := h
      obtain ⟨rfl, rfl⟩ := ih hu hv h2
      exact ⟨rfl, rfl⟩

lemma twoFieldSplit {a b : Str} {m w m' w' : Nat}
    (h : a ++ [sep] ++ natChars m ++ [sep] ++ natChars w =
         b ++ [sep] ++ natChars m' ++ [sep] ++ natChars w') :
    a = b ∧ m = m' ∧ w = w' := by
  have h1 : (a ++ sep :: natChars m) ++ sep :: natChars w =
      (b ++ sep :: natChars m') ++ sep :: natChars w' := by
    simpa [List.append_assoc] using h
  obtain ⟨h2, hw⟩ := colonSplit (sep_not_mem_natChars w) (sep_not_mem_natChars w') h1
  obtain ⟨ha, hm⟩ := colonSplit (sep_not_mem_natChars m) (sep_not_mem_natChars m') h2
  exact ⟨ha, natChars_inj hm, natChars_inj hw⟩

lemma compoundKey_inj {k k' : Str} {m w m' w' : Nat}
    (h : compoundKey k m w = compoundKey k' m' w') : k = k' ∧ m = m' ∧ w = w' :=
  twoFieldSplit h

/-- Boolean `isPrefixOf` agrees with the prefix order on lists. -/
lemma isPrefixOf_eq_true {l₁ l₂ : Str} : l₁.isPrefixOf l₂ = true ↔ l₁ <+: l₂ := by
  induction l₁ generalizing l₂ with
  | nil => simp [List.isPrefixOf]
  | cons a as ih =>
    cases l₂ with
    | nil => simp [List.isPrefixOf]
    | cons b bs =>
      simp [List.isPrefixOf, List.cons_prefix_cons, ih, Bool.and_eq_true, beq_iff_eq]

/-! Store update lemmas. -/

lemma updateStore_same (st : Store) (k : Str) (r : LimitRecord) :
    updateStore st k r k = some r := by simp [updateStore]

lemma updateStore_ne (st : Store) (k x : Str) (r : LimitRecord) (h : x ≠ k) :
    updateStore st k r x = st x := by simp [updateStore, h]

lemma updateStore_updateStore (st : Store) (k : Str) (r r' : LimitRecord) :
    updateStore (updateStore st k r) k r' = updateStore st k r' := by
  funext x
  by_cases hx : x = k <;> simp [updateStore, hx]

lemma updateStore_self {st : Store} {k : Str} {r : LimitRecord} (h : st k = some r) :
    updateStore st k r = st := by
  funext x
  by_cases hx : x = k <;> simp [updateStore, hx, h.symm]

/-! Case lemmas for the fixed-window `check_limit`. -/

lemma check_limit_live_allow {st : Store} {k : Str} {m w : Nat} {now : Int}
    {c : Nat} {R : Int} (hst : st (compoundKey k m w) = some ⟨c, R⟩)
    (hlive : now < R) (hroom : c < m) :
    InMemoryRateLimiter.check_limit st k m w now =
      (⟨true, ⟨k, m, c + 1, w, R⟩⟩, updateStore st (compoundKey k m w) ⟨c + 1, R⟩) := by
  have h1 : ¬ ((⟨c, R⟩ : LimitRecord).reset_at ≤ now) := by simp only; omega
  have h2 : ¬ (m ≤ (⟨c, R⟩ : LimitRecord).count) := by simp only; omega
  simp only [InMemoryRateLimiter.check_limit, hst, Option.getD_some, if_neg h1, if_neg h2]

lemma check_limit_live_deny {st : Store} {k : Str} {m w : Nat} {now : Int}
    {c : Nat} {R : Int} (hst : st (compoundKey k m w) = some ⟨c, R⟩)
    (hlive : now < R) (hfull : m ≤ c) :
    InMemoryRateLimiter.check_limit st k m w now =
      (⟨false, ⟨k, m, c, w, R⟩⟩, st) := by
  have h1 : ¬ ((⟨c, R⟩ : LimitRecord).reset_at ≤ now) := by simp only; omega
  have h2 : m ≤ (⟨c, R⟩ : LimitRecord).count := hfull
  simp only [InMemoryRateLimiter.check_limit, hst, Option.getD_some, if_neg h1, if_pos h2,
    updateStore_self hst]

lemma check_limit_fresh_allow {st : Store} {k : Str} {m w : Nat} {now : Int}
    (hst : st (compoundKey k m w) = none) (hw : 0 < w) (hm : 0 < m) :
    InMemoryRateLimiter.check_limit st k m w now =
      (⟨true, ⟨k, m, 1, w, now + (w : Int)⟩⟩,
       updateStore st (compoundKey k m w) ⟨1, now + (w : Int)⟩) := by
  have h1 : ¬ ((⟨0, now + (w : Int)⟩ : LimitRecord).reset_at ≤ now) := by simp only; omega
  have h2 : ¬ (m ≤ (⟨0, now + (w : Int)⟩ : LimitRecord).count) := by simp only; omega
  simp only [InMemoryRateLimiter.check_limit, hst, Option.getD_none, if_neg h1, if_neg h2]

lemma check_limit_roll_allow {st : Store} {k : Str} {m w : Nat} {now : Int}
    {r : LimitRecord} (hst : st (compoundKey k m w) = some r)
    (hexp : r.reset_at ≤ now) (hm : 0 < m) :
    InMemoryRateLimiter.check_limit st k m w now =
      (⟨true, ⟨k, m, 1, w, now + (w : Int)⟩⟩,
       updateStore st (compoundKey k m w) ⟨1, now + (w : Int)⟩) := by
  have h2 : ¬ (m ≤ (⟨0, now + (w : Int)⟩ : LimitRecord).count) := by simp only; omega
  simp only [InMemoryRateLimiter.check_limit, hst, Option.getD_some, if_pos hexp, if_neg h2]

lemma check_limit_untouched (st : Store) (k : Str) (m w : Nat) (now : Int)
    (x : Str) (hx : x ≠ compoundKey k m w) :
    (InMemoryRateLimiter.check_limit st k m w now).2 x = st x := by
  simp only [InMemoryRateLimiter.check_limit]
  split
  · split
    · exact updateStore_ne _ _ _ _ hx
    · exact updateStore_ne _ _ _ _ hx
  · split
    · exact updateStore_ne _ _ _ _ hx
    · exact updateStore_ne _ _ _ _ hx

lemma range_map_succ_shift {α : Type} (n : Nat) (g : Nat → α) :
    (List.range (n + 1)).map g = g 0 :: (List.range n).map (fun i => g (i + 1)) := by
  rw [List.range_succ_eq_map]
  simp [List.map_map, Function.comp_def]

/-- Running a block of in-window calls with room to spare: every call is allowed and the
count advances by one per call. -/
lemma checkSeq_run (k : Str) (m w : Nat) :
    ∀ (times : List Int) (st : Store) (c : Nat) (R : Int),
      st (compoundKey k m w) = some ⟨c, R⟩ →
      (∀ t ∈ times, t < R) →
      c + times.length ≤ m →
      InMemoryRateLimiter.checkSeq st k m w times =
        ((List.range times.length).map
           (fun i => (⟨true, ⟨k, m, c + i + 1, w, R⟩⟩ : RateLimitResult)),
         updateStore st (compoundKey k m w) ⟨c + times.length, R⟩) := by
  intro times
  induction times with
  | nil =>
    intro st c R hst _ _
    simp [InMemoryRateLimiter.checkSeq, updateStore_self hst]
  | cons t ts ih =>
    intro st c R hst htimes hroom
    have ht : t < R := htimes t (List.mem_cons_self t ts)
    have hc : c < m := by simp only [List.length_cons] at hroom; omega
    have hstep := check_limit_live_allow hst ht hc
    have hst1 : (updateStore st (compoundKey k m w) ⟨c + 1, R⟩) (compoundKey k m w) =
        some ⟨c + 1, R⟩ := updateStore_same _ _ _
    have hrest := ih (updateStore st (compoundKey k m w) ⟨c + 1, R⟩) (c + 1) R hst1
      (fun x hx => htimes x (List.mem_cons_of_mem t hx))
      (by simp only [List.length_cons] at hroom ⊢; omega)
    simp only [InMemoryRateLimiter.checkSeq, hstep, hrest, updateStore_updateStore,
      List.length_cons]
    rw [range_map_succ_shift]
    refine Prod.ext ?_ ?_
    · simp only [List.cons.injEq]
      refine ⟨by simp, ?_⟩
      apply List.map_congr_left
      intro i _
      simp only [RateLimitResult.mk.injEq, RateLimitQuota.mk.injEq, true_and, and_true]
      omega
    · have hcount : c + 1 + ts.length = c + (ts.length + 1) := by omega
      simp only [hcount]

lemma checkSeq_append (st : Store) (k : Str) (m w : Nat) (a b : List Int) :
    InMemoryRateLimiter.checkSeq st k m w (a ++ b) =
      ((InMemoryRateLimiter.checkSeq st k m w a).1 ++
         (InMemoryRateLimiter.checkSeq (InMemoryRateLimiter.checkSeq st k m w a).2 k m w b).1,
       (InMemoryRateLimiter.checkSeq (InMemoryRateLimiter.checkSeq st k m w a).2 k m w b).2) := by
  induction a generalizing st with
  | nil => simp [InMemoryRateLimiter.checkSeq]
  | cons t ts ih => simp [InMemoryRateLimiter.checkSeq, ih]

/-- C2: starting from a fresh key, `max_requests + 1` consecutive
`InMemoryRateLimiter.check_limit` calls inside one window (all strictly before the
`reset_at` stamped by the first call) produce `allowed = true` with post-increment
`used = 1, 2, ..., max_requests`, then one `allowed = false` whose quota reports the
un-incremented `used = max_requests`, and the stored count stays at `max_requests`. -/
theorem inmemory_fixed_window_progression (key : Str) (m w : Nat) (st : Store)
    (t₀ : Int) (ts : List Int) (tl : Int)
    (hm : 1 ≤ m) (hw : 1 ≤ w)
    (hfresh : st (compoundKey key m w) = none)
    (hlen : ts.length + 1 = m)
    (hts : ∀ t ∈ ts, t < t₀ + (w : Int)) (htl : tl < t₀ + (w : Int)) :
    InMemoryRateLimiter.checkSeq st key m w (t₀ :: (ts ++ [tl])) =
      ((List.range m).map
         (fun i => (⟨true, ⟨key, m, i + 1, w, t₀ + (w : Int)⟩⟩ : RateLimitResult)) ++
         [⟨false, ⟨key, m, m, w, t₀ + (w : Int)⟩⟩],
       updateStore st (compoundKey key m w) ⟨m, t₀ + (w : Int)⟩) := by
  subst hlen
  have h1 := @check_limit_fresh_allow st key (ts.length + 1) w t₀ hfresh (by omega) (by omega)
  have hst1 : updateStore st (compoundKey key (ts.length + 1) w) ⟨1, t₀ + (w : Int)⟩
      (compoundKey key (ts.length + 1) w) = some ⟨1, t₀ + (w : Int)⟩ :=
    updateStore_same _ _ _
  have hrun := checkSeq_run key (ts.length + 1) w ts _ 1 (t₀ + (w : Int)) hst1 hts (by omega)
  have hst2 : updateStore
      (updateStore st (compoundKey key (ts.length + 1) w) ⟨1, t₀ + (w : Int)⟩)
      (compoundKey key (ts.length + 1) w) ⟨1 + ts.length, t₀ + (w : Int)⟩ =
      updateStore st (compoundKey key (ts.length + 1) w) ⟨ts.length + 1, t₀ + (w : Int)⟩ := by
    rw [updateStore_updateStore]
    have hc : 1 + ts.length = ts.length + 1 := by omega
    rw [hc]
  have hdeny := @check_limit_live_deny
    (updateStore st (compoundKey key (ts.length + 1) w) ⟨ts.length + 1, t₀ + (w : Int)⟩)
    key (ts.length + 1) w tl (ts.length + 1) (t₀ + (w : Int))
    (updateStore_same _ _ _) htl (le_refl (ts.length + 1))
  simp only [InMemoryRateLimiter.checkSeq, h1, checkSeq_append, hrun, hst2, hdeny]
  refine Prod.ext ?_ rfl
  rw [range_map_succ_shift]
  simp only [List.cons_append, List.cons.injEq]
  refine ⟨by simp, ?_⟩
  congr 1
  apply List.map_congr_left
  intro i _
  simp only [RateLimitResult.mk.injEq, RateLimitQuota.mk.injEq, true_and, and_true]
  omega

/-- Witness for C2: the spec's concrete scenario `max_requests = 3`, `window = 60`,
key `"u1"`, calls at times 0, 1, 2, 3. -/
theorem inmemory_fixed_window_progression_witness :
    emptyStore (compoundKey ("u1".toList) 3 60) = none ∧
    InMemoryRateLimiter.checkSeq emptyStore ("u1".toList) 3 60 (0 :: ([1, 2] ++ [3])) =
      ((List.range 3).map
         (fun i => (⟨true, ⟨"u1".toList, 3, i + 1, 60, 0 + (60 : Int)⟩⟩ : RateLimitResult)) ++
         [⟨false, ⟨"u1".toList, 3, 3, 60, 0 + (60 : Int)⟩⟩],
       updateStore emptyStore (compoundKey ("u1".toList) 3 60) ⟨3, 0 + (60 : Int)⟩) :=
  ⟨rfl, inmemory_fixed_window_progression ("u1".toList) 3 60 emptyStore 0 [1, 2] 3
    (by decide) (by decide) rfl rfl (by decide) (by decide)⟩

/-- C8: when the stored window has expired (`reset_at ≤ now`), the next `check_limit`
performs a hard reset — the record becomes `{count := 0, reset_at := now + window}`
before the increment — and the call is allowed with `used = 1` and the new `reset_at`,
regardless of the usage accumulated in the previous window. -/
theorem inmemory_window_rollover {st : Store} {key : Str} {m w : Nat} {now : Int}
    {r : LimitRecord} (hst : st (compoundKey key m w) = some r)
    (hexp : r.reset_at ≤ now) (hm : 1 ≤ m) :
    InMemoryRateLimiter.check_limit st key m w now =
      (⟨true, ⟨key, m, 1, w, now + (w : Int)⟩⟩,
       updateStore st (compoundKey key m w) ⟨1, now + (w : Int)⟩) :=
  check_limit_roll_allow hst hexp hm

/-- Witness for C8: a key exhausted at 5 of 3 uses with `reset_at = 10` is allowed again
at `now = 50` with `used = 1` and `reset_at = 110`. -/
theorem inmemory_window_rollover_witness :
    (updateStore emptyStore (compoundKey ("u".toList) 3 60) ⟨5, 10⟩)
        (compoundKey ("u".toList) 3 60) = some ⟨5, 10⟩ ∧
    InMemoryRateLimiter.check_limit
        (updateStore emptyStore (compoundKey ("u".toList) 3 60) ⟨5, 10⟩)
        ("u".toList) 3 60 50 =
      (⟨true, ⟨"u".toList, 3, 1, 60, 50 + (60 : Int)⟩⟩,
       updateStore (updateStore emptyStore (compoundKey ("u".toList) 3 60) ⟨5, 10⟩)
         (compoundKey ("u".toList) 3 60) ⟨1, 50 + (60 : Int)⟩) :=
  ⟨by decide,
   @inmemory_window_rollover
     (updateStore emptyStore (compoundKey ("u".toList) 3 60) ⟨5, 10⟩)
     ("u".toList) 3 60 50 ⟨5, 10⟩ (by decide) (by decide) (by decide)⟩

/-! Count-bound invariant of the fixed-window store (C9). -/

/-- Every record stored under a compound key has `count` bounded by the `max_requests`
value embedded in that key. -/
def CountInv (st : Store) : Prop :=
  ∀ k m w r, st (compoundKey k m w) = some r → r.count ≤ m

lemma countInv_empty : CountInv emptyStore := by
  intro k m w r h
  simp [emptyStore] at h

lemma countInv_update {st : Store} {k : Str} {m w : Nat} {v : LimitRecord}
    (hst : CountInv st) (hv : v.count ≤ m) :
    CountInv (updateStore st (compoundKey k m w) v) := by
  intro k' m' w' r h
  by_cases hkey : compoundKey k' m' w' = compoundKey k m w
  · obtain ⟨-, hm, -⟩ := compoundKey_inj hkey
    rw [hkey, updateStore_same] at h
    cases h
    omega
  · rw [updateStore_ne _ _ _ _ hkey] at h
    exact hst k' m' w' r h

lemma countInv_check {st : Store} (k : Str) (m w : Nat) (t : Int) (hst : CountInv st) :
    CountInv (InMemoryRateLimiter.check_limit st k m w t).2 := by
  have hrec : ((st (compoundKey k m w)).getD ⟨0, t + (w : Int)⟩).count ≤ m := by
    rcases h : st (compoundKey k m w) with _ | r
    · simp
    · simpa using hst k m w r h
  simp only [InMemoryRateLimiter.check_limit]
  split
  · split
    · exact countInv_update hst (by simp)
    · next hcond => exact countInv_update hst (by simp at hcond ⊢; omega)
  · split
    · exact countInv_update hst hrec
    · next hcond => exact countInv_update hst (by simp at hcond ⊢; omega)

lemma countInv_reset {st : Store} (k : Str) (hst : CountInv st) :
    CountInv (InMemoryRateLimiter.reset_limit st k) := by
  intro k' m' w' r h
  simp only [InMemoryRateLimiter.reset_limit] at h
  rcases hrec : st (compoundKey k' m' w') with _ | r0
  · rw [hrec] at h
    cases h
  · rw [hrec] at h
    have h2 : (if List.isPrefixOf (k ++ [sep]) (compoundKey k' m' w') = true
        then some (⟨0, r0.reset_at⟩ : LimitRecord) else some r0) = some r := h
    by_cases hp : (k ++ [sep]).isPrefixOf (compoundKey k' m' w') = true
    · rw [if_pos hp] at h2
      cases h2
      simp
    · rw [if_neg hp] at h2
      cases h2
      exact hst k' m' w' _ hrec

lemma get_quota_snd (st : Store) (k : Str) (m w : Nat) (t : Int) :
    (InMemoryRateLimiter.get_quota st k m w t).2 = st := by
  rcases h : st (compoundKey k m w) with _ | r
  · simp only [InMemoryRateLimiter.get_quota, h]
  · simp only [InMemoryRateLimiter.get_quota, h]
    split <;> rfl

lemma countInv_runOps : ∀ (ops : List AdapterOp) (st : Store), CountInv st →
    CountInv (runOps st ops) := by
  intro ops
  induction ops with
  | nil => intro st h; exact h
  | cons op ops ih =>
    intro st h
    rw [runOps, List.foldl_cons]
    refine ih _ ?_
    rcases op with ⟨k, m, w, t⟩ | ⟨k, m, w, t⟩ | k
    · exact countInv_check k m w t h
    · show CountInv (InMemoryRateLimiter.get_quota st k m w t).2
      rw [get_quota_snd]
      exact h
    · exact countInv_reset k h

lemma get_quota_used_le {st : Store} (hst : CountInv st) (k : Str) (m w : Nat)
    (now : Int) :
    (InMemoryRateLimiter.get_quota st k m w now).1.used ≤
      (InMemoryRateLimiter.get_quota st k m w now).1.max_requests := by
  rcases h : st (compoundKey k m w) with _ | r
  · simp [InMemoryRateLimiter.get_quota, h]
  · have hr := hst k m w r h
    simp only [InMemoryRateLimiter.get_quota, h]
    split
    · simp
    · simpa using hr

lemma check_limit_used_le {st : Store} (hst : CountInv st) (k : Str) (m w : Nat)
    (now : Int) :
    (InMemoryRateLimiter.check_limit st k m w now).1.quota.used ≤
      (InMemoryRateLimiter.check_limit st k m w now).1.quota.max_requests := by
  have hrec : ((st (compoundKey k m w)).getD ⟨0, now + (w : Int)⟩).count ≤ m := by
    rcases h : st (compoundKey k m w) with _ | r
    · simp
    · simpa using hst k m w r h
  simp only [InMemoryRateLimiter.check_limit]
  split
  · split
    · simp
    · next hcond => simp at hcond ⊢; omega
  · split
    · simpa using hrec
    · next hcond => simp at hcond ⊢; omega

/-- C9: in any adapter state reachable by `check_limit` / `get_quota` / `reset_limit`
calls from the empty store, every stored record's count is at most the `max_requests`
embedded in its compound key, every quota the adapter returns satisfies
`used ≤ max_requests`, and `remaining` equals `max_requests - used` exactly (the
`max(0, ·)` clamp never truncates). -/
theorem inmemory_count_invariant (ops : List AdapterOp) :
    CountInv (runOps emptyStore ops) ∧
    (∀ k m w now,
      (InMemoryRateLimiter.get_quota (runOps emptyStore ops) k m w now).1.used ≤
        (InMemoryRateLimiter.get_quota (runOps emptyStore ops) k m w now).1.max_requests ∧
      ((InMemoryRateLimiter.get_quota (runOps emptyStore ops) k m w now).1.max_requests : Int)
          - (InMemoryRateLimiter.get_quota (runOps emptyStore ops) k m w now).1.used =
        ((InMemoryRateLimiter.get_quota (runOps emptyStore ops) k m w now).1.remaining : Int)) ∧
    (∀ k m w now,
      (InMemoryRateLimiter.check_limit (runOps emptyStore ops) k m w now).1.quota.used ≤
        (InMemoryRateLimiter.check_limit (runOps emptyStore ops) k m w now).1.quota.max_requests ∧
      ((InMemoryRateLimiter.check_limit (runOps emptyStore ops) k m w now).1.quota.max_requests : Int)
          - (InMemoryRateLimiter.check_limit (runOps emptyStore ops) k m w now).1.quota.used =
        ((InMemoryRateLimiter.check_limit (runOps emptyStore ops) k m w now).1.quota.remaining : Int)) := by
  have hinv := countInv_runOps ops emptyStore countInv_empty
  refine ⟨hinv, fun k m w now => ?_, fun k m w now => ?_⟩
  · have h := get_quota_used_le hinv k m w now
    refine ⟨h, ?_⟩
    unfold RateLimitQuota.remaining
    omega
  · have h := check_limit_used_le hinv k m w now
    refine ⟨h, ?_⟩
    unfold RateLimitQuota.remaining
    omega

/-- Witness for C9: after one `check_limit` call the stored record is `⟨1, 60⟩` and the
invariant instance `1 ≤ 3` follows from the theorem. -/
theorem inmemory_count_invariant_witness :
    runOps emptyStore [AdapterOp.check ("u".toList) 3 60 0] (compoundKey ("u".toList) 3 60)
        = some ⟨1, 60⟩ ∧ (⟨1, 60⟩ : LimitRecord).count ≤ 3 :=
  ⟨by decide,
   (inmemory_count_invariant [AdapterOp.check ("u".toList) 3 60 0]).1
     ("u".toList) 3 60 ⟨1, 60⟩ (by decide)⟩

/-! Sliding-window (Redis) lemmas. -/

lemma updateRStore_same (st : RStore) (k : Str) (s : List Int) :
    updateRStore st k s k = s := by simp [updateRStore]

lemma updateRStore_ne (st : RStore) (k x : Str) (s : List Int) (h : x ≠ k) :
    updateRStore st k s x = st x := by simp [updateRStore, h]

lemma mem_zadd_self (s : List Int) (t : Int) : t ∈ zadd s t := by
  unfold zadd
  split
  · assumption
  · exact List.mem_cons_self t s

lemma mem_zadd_of_mem {s : List Int} {t x : Int} (h : x ∈ s) : x ∈ zadd s t := by
  unfold zadd
  split
  · exact h
  · exact List.mem_cons_of_mem t h

lemma mem_zremrangebyscore {s : List Int} {lo hi x : Int} :
    x ∈ zremrangebyscore s lo hi ↔ x ∈ s ∧ ¬(lo ≤ x ∧ x ≤ hi) := by
  simp [zremrangebyscore, List.mem_filter, Bool.and_eq_true, decide_eq_true_iff]
  intro _
  omega

lemma redis_check_snd (st : RStore) (key : Str) (m w : Nat) (now : Int) :
    (RedisRateLimiter.check_limit st key m w now).2 =
      updateRStore st (redisKey key m w)
        (zremrangebyscore (zadd (st (redisKey key m w)) now) 0 (now - (w : Int))) := rfl

lemma redis_get_quota_snd (st : RStore) (key : Str) (m w : Nat) (now : Int) :
    (RedisRateLimiter.get_quota st key m w now).2 =
      updateRStore st (redisKey key m w)
        (zremrangebyscore (st (redisKey key m w)) 0 (now - (w : Int))) := rfl

/-- C3: `RedisRateLimiter.check_limit` always inserts `now` into the sorted set — even
when the request ends up denied — and allows exactly when the post-insertion in-window
count is `≤ max_requests`; the recorded timestamp keeps contributing to later calls
until it ages out of (or falls outside) the eviction range. -/
theorem redis_check_limit_records_even_denied (st : RStore) (key : Str)
    (m w : Nat) (now : Int) (hw : 1 ≤ w) :
    now ∈ (RedisRateLimiter.check_limit st key m w now).2 (redisKey key m w) ∧
    ((RedisRateLimiter.check_limit st key m w now).1.allowed = true ↔
      (RedisRateLimiter.check_limit st key m w now).1.quota.used ≤ m) ∧
    (RedisRateLimiter.check_limit st key m w now).1.quota.used =
      (zremrangebyscore (zadd (st (redisKey key m w)) now) 0 (now - (w : Int))).length ∧
    (∀ now' : Int, ¬(0 ≤ now ∧ now ≤ now' - (w : Int)) →
      now ∈ (RedisRateLimiter.check_limit
        ((RedisRateLimiter.check_limit st key m w now).2) key m w now').2
          (redisKey key m w)) := by
  have hin : now ∈ (RedisRateLimiter.check_limit st key m w now).2 (redisKey key m w) := by
    rw [redis_check_snd, updateRStore_same, mem_zremrangebyscore]
    exact ⟨mem_zadd_self _ _, by omega⟩
  refine ⟨hin, ?_, rfl, ?_⟩
  · simp [RedisRateLimiter.check_limit]
  · intro now' hkeep
    rw [redis_check_snd _ _ _ _ now', updateRStore_same, mem_zremrangebyscore]
    exact ⟨mem_zadd_of_mem hin, hkeep⟩

/-- Witness for C3: with limit 1/60s and one prior entry, the call at `now = 5` is
denied yet its timestamp is recorded and survives a later call at `now' = 7`. -/
theorem redis_check_limit_records_even_denied_witness :
    (1 : Nat) ≤ 60 ∧
    (5 : Int) ∈ (RedisRateLimiter.check_limit
        (updateRStore emptyRStore (redisKey ("k".toList) 1 60) [0])
        ("k".toList) 1 60 5).2 (redisKey ("k".toList) 1 60) ∧
    (RedisRateLimiter.check_limit
        (updateRStore emptyRStore (redisKey ("k".toList) 1 60) [0])
        ("k".toList) 1 60 5).1.allowed = false ∧
    (5 : Int) ∈ (RedisRateLimiter.check_limit
        ((RedisRateLimiter.check_limit
            (updateRStore emptyRStore (redisKey ("k".toList) 1 60) [0])
            ("k".toList) 1 60 5).2)
        ("k".toList) 1 60 7).2 (redisKey ("k".toList) 1 60) :=
  ⟨by decide,
   (redis_check_limit_records_even_denied
     (updateRStore emptyRStore (redisKey ("k".toList) 1 60) [0])
     ("k".toList) 1 60 5 (by decide)).1,
   by decide,
   (redis_check_limit_records_even_denied
     (updateRStore emptyRStore (redisKey ("k".toList) 1 60) [0])
     ("k".toList) 1 60 5 (by decide)).2.2.2 7 (by decide)⟩

/-- Counterexample to C1 as stated: the Redis `get_quota` pipeline runs
`ZREMRANGEBYSCORE`, so it does mutate the stored request history — here a stale entry
at timestamp 0 disappears from the set when `get_quota` runs at `now = 100`. -/
theorem redis_get_quota_mutates_counterexample :
    (RedisRateLimiter.get_quota
        (updateRStore emptyRStore (redisKey ("k".toList) 1 60) [0])
        ("k".toList) 1 60 100).2 (redisKey ("k".toList) 1 60) ≠
      (updateRStore emptyRStore (redisKey ("k".toList) 1 60) [0])
        (redisKey ("k".toList) 1 60) := by
  decide

/-- C1 (amended): `get_quota` is read-only on the in-memory adapter's counter store; on
the Redis adapter it mirrors the evict/count steps but never inserts — no timestamp is
added (the post-state set is contained in the pre-state set), in-window entries are all
preserved, the reported `used` is the post-eviction in-window count, and no other redis
key is touched.  (Only aged-out entries can disappear, which is exactly the eviction
step the spec describes.) -/
theorem get_quota_read_only_core (stm : Store) (st : RStore) (key : Str)
    (m w : Nat) (now : Int) :
    (InMemoryRateLimiter.get_quota stm key m w now).2 = stm ∧
    (∀ t, t ∈ (RedisRateLimiter.get_quota st key m w now).2 (redisKey key m w) →
      t ∈ st (redisKey key m w)) ∧
    (∀ t, t ∈ st (redisKey key m w) → ¬(0 ≤ t ∧ t ≤ now - (w : Int)) →
      t ∈ (RedisRateLimiter.get_quota st key m w now).2 (redisKey key m w)) ∧
    (RedisRateLimiter.get_quota st key m w now).1.used =
      (zremrangebyscore (st (redisKey key m w)) 0 (now - (w : Int))).length ∧
    (∀ k', k' ≠ redisKey key m w →
      (RedisRateLimiter.get_quota st key m w now).2 k' = st k') := by
  refine ⟨get_quota_snd stm key m w now, ?_, ?_, rfl, ?_⟩
  · intro t ht
    rw [redis_get_quota_snd, updateRStore_same, mem_zremrangebyscore] at ht
    exact ht.1
  · intro t ht hkeep
    rw [redis_get_quota_snd, updateRStore_same, mem_zremrangebyscore]
    exact ⟨ht, hkeep⟩
  · intro k' hk
    rw [redis_get_quota_snd]
    exact updateRStore_ne _ _ _ _ hk

/-- Witness for C1 (amended): in-window entry 50 survives `get_quota` at `now = 100`
with window 60, and the in-memory store is returned unchanged. -/
theorem get_quota_read_only_core_witness :
    (InMemoryRateLimiter.get_quota emptyStore ("k".toList) 1 60 0).2 = emptyStore ∧
    (50 : Int) ∈ (RedisRateLimiter.get_quota
        (updateRStore emptyRStore (redisKey ("k".toList) 1 60) [50, 0])
        ("k".toList) 1 60 100).2 (redisKey ("k".toList) 1 60) :=
  ⟨(get_quota_read_only_core emptyStore emptyRStore ("k".toList) 1 60 0).1,
   (get_quota_read_only_core emptyStore
     (updateRStore emptyRStore (redisKey ("k".toList) 1 60) [50, 0])
     ("k".toList) 1 60 100).2.2.1 50 (by decide) (by decide)⟩

/-! Service `reset_limit` scoping (C4). -/

lemma bare_reset_misses {key rt : Str} (m w : Nat)
    (h : ¬ (key ++ [sep]) <+: (rt ++ [sep] ++ key ++ [sep])) :
    (key ++ [sep]).isPrefixOf (compoundKey (nsKey rt key) m w) = false := by
  cases hB : (key ++ [sep]).isPrefixOf (compoundKey (nsKey rt key) m w)
  · rfl
  · exfalso
    have hpre := isPrefixOf_eq_true.mp hB
    have hsplit : compoundKey (nsKey rt key) m w =
        (rt ++ [sep] ++ key ++ [sep]) ++ (natChars m ++ [sep] ++ natChars w) := by
      simp [compoundKey, nsKey, List.append_assoc]
    rw [hsplit] at hpre
    have hfull : (rt ++ [sep] ++ key ++ [sep]) <+:
        (rt ++ [sep] ++ key ++ [sep]) ++ (natChars m ++ [sep] ++ natChars w) :=
      List.prefix_append _ _
    have hlen : (key ++ [sep]).length ≤ (rt ++ [sep] ++ key ++ [sep]).length := by
      simp [List.length_append]
      omega
    exact h (List.prefix_of_prefix_length_le hpre hfull hlen)

/-- Counterexample to C4 as stated: with logical key `"gpt"` checked under resource type
`"gpt"`, the storage key is `"gpt:gpt:10:60"`, which *does* start with the bare prefix
`"gpt:"` — so `reset_limit` with `resource_type` omitted resets the namespaced usage
(count 1 becomes 0) instead of leaving it unchanged. -/
theorem service_reset_bare_key_counterexample :
    (RateLimiterService.check_and_update defaultLimits emptyStore ("gpt".toList)
        ("gpt".toList) 0).2
      (compoundKey (nsKey ("gpt".toList) ("gpt".toList)) 10 60) = some ⟨1, 60⟩ ∧
    (RateLimiterService.reset_limit
        ((RateLimiterService.check_and_update defaultLimits emptyStore ("gpt".toList)
          ("gpt".toList) 0).2) ("gpt".toList) none)
      (compoundKey (nsKey ("gpt".toList) ("gpt".toList)) 10 60) = some ⟨0, 60⟩ ∧
    (RateLimiterService.reset_limit
        ((RateLimiterService.check_and_update defaultLimits emptyStore ("gpt".toList)
          ("gpt".toList) 0).2) ("gpt".toList) none)
      (compoundKey (nsKey ("gpt".toList) ("gpt".toList)) 10 60) ≠
    (RateLimiterService.check_and_update defaultLimits emptyStore ("gpt".toList)
        ("gpt".toList) 0).2
      (compoundKey (nsKey ("gpt".toList) ("gpt".toList)) 10 60) := by
  refine ⟨by decide, by decide, by decide⟩

/-- C4 (amended): provided the bare prefix `f"{key}:"` is not itself a prefix of the
namespaced prefix `f"{resource_type}:{key}:"` (it is one exactly in corner cases such as
`key = resource_type`), `reset_limit` with `resource_type` omitted leaves every
namespaced record of that key unchanged; and when a (non-empty) `resource_type` is
given, exactly the records whose storage key starts with `f"{resource_type}:{key}:"`
have their count zeroed, all others being untouched. -/
theorem service_reset_limit_scoping (st : Store) (key rt : Str) (m w : Nat)
    (h : (key ++ [sep]).isPrefixOf (rt ++ [sep] ++ key ++ [sep]) = false) :
    RateLimiterService.reset_limit st key none (compoundKey (nsKey rt key) m w) =
      st (compoundKey (nsKey rt key) m w) ∧
    (rt ≠ [] →
      ∀ lk, RateLimiterService.reset_limit st key (some rt) lk =
        match st lk with
        | none => none
        | some r =>
          if (nsKey rt key ++ [sep]).isPrefixOf lk then some ⟨0, r.reset_at⟩
          else some r) := by
  have h' : ¬ (key ++ [sep]) <+: (rt ++ [sep] ++ key ++ [sep]) := by
    intro hp
    rw [isPrefixOf_eq_true.mpr hp] at h
    cases h
  constructor
  · rcases hrec : st (compoundKey (nsKey rt key) m w) with _ | r
    · simp only [RateLimiterService.reset_limit, InMemoryRateLimiter.reset_limit, hrec]
    · simp only [RateLimiterService.reset_limit, InMemoryRateLimiter.reset_limit, hrec]
      rw [bare_reset_misses m w h']
      simp
  · intro hne lk
    rcases rt with _ | ⟨a, rt'⟩
    · exact absurd rfl hne
    · rfl

/-- Witness for C4 (amended): with key `"u1"` and resource type `"gpt"`, a bare
`reset_limit("u1")` leaves the namespaced `gpt:u1:10:60` record unchanged. -/
theorem service_reset_limit_scoping_witness :
    (("u1".toList ++ [sep]).isPrefixOf
        ("gpt".toList ++ [sep] ++ "u1".toList ++ [sep]) = false) ∧
    RateLimiterService.reset_limit
        (updateStore emptyStore (compoundKey (nsKey ("gpt".toList) ("u1".toList)) 10 60)
          ⟨7, 60⟩)
        ("u1".toList) none (compoundKey (nsKey ("gpt".toList) ("u1".toList)) 10 60) =
      (updateStore emptyStore (compoundKey (nsKey ("gpt".toList) ("u1".toList)) 10 60)
          ⟨7, 60⟩)
        (compoundKey (nsKey ("gpt".toList) ("u1".toList)) 10 60) :=
  ⟨by decide,
   (service_reset_limit_scoping
     (updateStore emptyStore (compoundKey (nsKey ("gpt".toList) ("u1".toList)) 10 60)
       ⟨7, 60⟩)
     ("u1".toList) ("gpt".toList) 10 60 (by decide)).1⟩

/-! Isolation of distinct keys and resource types (C5). -/

lemma nsKey_key_inj {r k₁ k₂ : Str} (h : nsKey r k₁ = nsKey r k₂) : k₁ = k₂ :=
  List.append_cancel_left h

lemma nsKey_rt_inj {r₁ r₂ k : Str} (h : nsKey r₁ k = nsKey r₂ k) : r₁ = r₂ :=
  List.append_cancel_right (List.append_cancel_right h)

lemma adapterCheckSeq_untouched (k : Str) (m w : Nat) :
    ∀ (times : List Int) (st : Store) (x : Str), x ≠ compoundKey k m w →
      (InMemoryRateLimiter.checkSeq st k m w times).2 x = st x := by
  intro times
  induction times with
  | nil => intro st x _; rfl
  | cons t ts ih =>
    intro st x hx
    simp only [InMemoryRateLimiter.checkSeq]
    rw [ih _ x hx, check_limit_untouched _ _ _ _ _ _ hx]

lemma serviceCheckSeq_untouched (cfg : Config) (k r : Str) (x : Str)
    (hx : ∀ l : Limits, cfg r = some l →
      x ≠ compoundKey (nsKey r k) l.max_requests l.window_seconds) :
    ∀ (times : List Int) (st : Store),
      RateLimiterService.checkSeq cfg st k r times x = st x := by
  intro times
  induction times with
  | nil => intro st; rfl
  | cons t ts ih =>
    intro st
    simp only [RateLimiterService.checkSeq]
    rw [ih]
    rcases hcfg : cfg r with _ | l
    · simp only [RateLimiterService.check_and_update, hcfg]
    · simp only [RateLimiterService.check_and_update, hcfg]
      exact check_limit_untouched _ _ _ _ _ _ (hx l hcfg)

lemma get_quota_fst_congr {st st' : Store} (k : Str) (m w : Nat) (now : Int)
    (h : st (compoundKey k m w) = st' (compoundKey k m w)) :
    (InMemoryRateLimiter.get_quota st k m w now).1 =
      (InMemoryRateLimiter.get_quota st' k m w now).1 := by
  rcases hs : st' (compoundKey k m w) with _ | r
  · simp only [InMemoryRateLimiter.get_quota, hs, h.trans hs]
  · simp only [InMemoryRateLimiter.get_quota, hs, h.trans hs]
    split
    · rfl
    · rfl

/-- C5: usage counts are never shared.  At the adapter level, any sequence of
`check_limit` calls on one key leaves the quota of any other key unchanged, whatever
the two `(max_requests, window_seconds)` configurations.  At the service level, any
sequence of `check_and_update` calls for `(k₁, r₁)` leaves the `get_quota` answer for
`(k₂, r₂)` unchanged whenever the keys differ under one resource type, or the resource
types differ for one logical key. -/
theorem rate_limit_isolation :
    (∀ (st : Store) (k₁ k₂ : Str) (m₁ w₁ m₂ w₂ : Nat) (times : List Int) (now : Int),
      k₁ ≠ k₂ →
      (InMemoryRateLimiter.get_quota
        (InMemoryRateLimiter.checkSeq st k₁ m₁ w₁ times).2 k₂ m₂ w₂ now).1 =
      (InMemoryRateLimiter.get_quota st k₂ m₂ w₂ now).1) ∧
    (∀ (cfg : Config) (st : Store) (k₁ r₁ k₂ r₂ : Str) (times : List Int) (now : Int),
      ((k₁ ≠ k₂ ∧ r₁ = r₂) ∨ (k₁ = k₂ ∧ r₁ ≠ r₂)) →
      (RateLimiterService.get_quota cfg
        (RateLimiterService.checkSeq cfg st k₁ r₁ times) k₂ r₂ now).1 =
      (RateLimiterService.get_quota cfg st k₂ r₂ now).1) := by
  constructor
  · intro st k₁ k₂ m₁ w₁ m₂ w₂ times now hk
    apply get_quota_fst_congr
    apply adapterCheckSeq_untouched
    intro heq
    exact hk (compoundKey_inj heq).1.symm
  · intro cfg st k₁ r₁ k₂ r₂ times now hdist
    rcases hcfg2 : cfg r₂ with _ | l₂
    · simp only [RateLimiterService.get_quota, hcfg2]
    · simp only [RateLimiterService.get_quota, hcfg2]
      refine congrArg Except.ok ?_
      apply get_quota_fst_congr
      apply serviceCheckSeq_untouched
      intro l₁ hcfg1 heq
      obtain ⟨hns, -, -⟩ := compoundKey_inj heq
      rcases hdist with ⟨hk, rfl⟩ | ⟨rfl, hr⟩
      · exact hk (nsKey_key_inj hns).symm
      · exact hr (nsKey_rt_inj hns).symm

/-- Witness for C5: the spec's scenario — ten `gpt` calls for `"alice"` exhaust the
`gpt` quota (`used = 10` of 10) yet leave the `api` quota for the same `"alice"`
untouched. -/
theorem rate_limit_isolation_witness :
    (("alice".toList ≠ "alice".toList ∧ "gpt".toList = "api".toList) ∨
      ("alice".toList = "alice".toList ∧ "gpt".toList ≠ "api".toList)) ∧
    ((RateLimiterService.get_quota defaultLimits
        (RateLimiterService.checkSeq defaultLimits emptyStore ("alice".toList)
          ("gpt".toList) (List.replicate 10 0)) ("alice".toList) ("gpt".toList) 0).1 =
      .ok ⟨nsKey ("gpt".toList) ("alice".toList), 10, 10, 60, 60⟩) ∧
    ((RateLimiterService.get_quota defaultLimits
        (RateLimiterService.checkSeq defaultLimits emptyStore ("alice".toList)
          ("gpt".toList) (List.replicate 10 0)) ("alice".toList) ("api".toList) 0).1 =
      (RateLimiterService.get_quota defaultLimits emptyStore ("alice".toList)
        ("api".toList) 0).1) :=
  ⟨Or.inr ⟨rfl, by decide⟩,
    by rfl,
    (rate_limit_isolation).2 defaultLimits emptyStore ("alice".toList) ("gpt".toList)
      ("alice".toList) ("api".toList) (List.replicate 10 0) 0
      (Or.inr ⟨rfl, by decide⟩)⟩

/-! Service configuration errors (C6) and the `with_rate_limiting` wrapper (C7, C10). -/

/-- C6: `check_and_update` and `get_quota` fail with the `ValueError` message exactly
when `resource_type` is unregistered, leaving the store untouched in that case; when it
is registered they delegate to the adapter on the namespaced key `f"{resource_type}:{key}"`
with the registered `max_requests` / `window_seconds`. -/
theorem service_unknown_resource_type (cfg : Config) (st : Store) (key rt : Str)
    (now : Int) :
    (cfg rt = none →
      RateLimiterService.check_and_update cfg st key rt now =
        (.error (unknownResourceMsg rt), st) ∧
      RateLimiterService.get_quota cfg st key rt now =
        (.error (unknownResourceMsg rt), st)) ∧
    (∀ l : Limits, cfg rt = some l →
      RateLimiterService.check_and_update cfg st key rt now =
        (.ok (InMemoryRateLimiter.check_limit st (nsKey rt key)
              l.max_requests l.window_seconds now).1,
         (InMemoryRateLimiter.check_limit st (nsKey rt key)
              l.max_requests l.window_seconds now).2) ∧
      RateLimiterService.get_quota cfg st key rt now =
        (.ok (InMemoryRateLimiter.get_quota st (nsKey rt key)
              l.max_requests l.window_seconds now).1,
         (InMemoryRateLimiter.get_quota st (nsKey rt key)
              l.max_requests l.window_seconds now).2)) := by
  constructor
  · intro h
    constructor
    · simp only [RateLimiterService.check_and_update, h]
    · simp only [RateLimiterService.get_quota, h]
  · intro l h
    constructor
    · simp only [RateLimiterService.check_and_update, h]
    · simp only [RateLimiterService.get_quota, h]

/-- Witness for C6: resource type `"zzz"` is unregistered, so `check_and_update` raises
and records nothing; `"gpt"` is registered and delegates. -/
theorem service_unknown_resource_type_witness :
    defaultLimits ("zzz".toList) = none ∧
    RateLimiterService.check_and_update defaultLimits emptyStore ("u".toList)
        ("zzz".toList) 0 = (.error (unknownResourceMsg ("zzz".toList)), emptyStore) :=
  ⟨by decide,
   ((service_unknown_resource_type defaultLimits emptyStore ("u".toList)
     ("zzz".toList) 0).1 (by decide)).1⟩

lemma wrapper_allowed {α β : Type} (cfg : Config) (func : α → Option β)
    (key_func : α → Str) (rt : Str) (l : Limits) (hreg : cfg rt = some l)
    (st : Store) (args : α) (now : Int) (b : Bool)
    (hallow : (InMemoryRateLimiter.check_limit st (nsKey rt (key_func args))
        l.max_requests l.window_seconds now).1.allowed = true) :
    RateLimiterService.with_rate_limiting cfg func key_func rt b st args now =
      (.ok (func args),
       (InMemoryRateLimiter.check_limit st (nsKey rt (key_func args))
         l.max_requests l.window_seconds now).2) := by
  simp only [RateLimiterService.with_rate_limiting, RateLimiterService.check_and_update,
    hreg, hallow]
  simp

lemma wrapper_denied_silent {α β : Type} (cfg : Config) (func : α → Option β)
    (key_func : α → Str) (rt : Str) (l : Limits) (hreg : cfg rt = some l)
    (st : Store) (args : α) (now : Int)
    (hdeny : (InMemoryRateLimiter.check_limit st (nsKey rt (key_func args))
        l.max_requests l.window_seconds now).1.allowed = false) :
    RateLimiterService.with_rate_limiting cfg func key_func rt false st args now =
      (.ok none,
       (InMemoryRateLimiter.check_limit st (nsKey rt (key_func args))
         l.max_requests l.window_seconds now).2) := by
  simp only [RateLimiterService.with_rate_limiting, RateLimiterService.check_and_update,
    hreg, hdeny]
  simp

lemma wrapper_denied_raise {α β : Type} (cfg : Config) (func : α → Option β)
    (key_func : α → Str) (rt : Str) (l : Limits) (hreg : cfg rt = some l)
    (st : Store) (args : α) (now : Int)
    (hdeny : (InMemoryRateLimiter.check_limit st (nsKey rt (key_func args))
        l.max_requests l.window_seconds now).1.allowed = false) :
    RateLimiterService.with_rate_limiting cfg func key_func rt true st args now =
      (.error (.rateLimitExceeded
          (InMemoryRateLimiter.check_limit st (nsKey rt (key_func args))
            l.max_requests l.window_seconds now).1.quota),
       (InMemoryRateLimiter.check_limit st (nsKey rt (key_func args))
         l.max_requests l.window_seconds now).2) := by
  simp only [RateLimiterService.with_rate_limiting, RateLimiterService.check_and_update,
    hreg, hdeny]
  simp

/-- C7: for a registered resource type, the wrapper produced by `with_rate_limiting`
derives the key via `key_func args` and checks the limit; when allowed it returns
`func`'s result; when denied with `raise_on_limit = false` it returns the `None`
sentinel, and with `raise_on_limit = true` it raises `RateLimitExceededError` carrying
the denying quota — in both denied cases for *every* wrapped function `g`, i.e. the
wrapped function is not invoked. -/
theorem with_rate_limiting_behavior {α β : Type} (cfg : Config) (func : α → Option β)
    (key_func : α → Str) (rt : Str) (l : Limits) (hreg : cfg rt = some l)
    (st : Store) (args : α) (now : Int) :
    ((InMemoryRateLimiter.check_limit st (nsKey rt (key_func args))
        l.max_requests l.window_seconds now).1.allowed = true →
      ∀ b, RateLimiterService.with_rate_limiting cfg func key_func rt b st args now =
        (.ok (func args),
         (InMemoryRateLimiter.check_limit st (nsKey rt (key_func args))
           l.max_requests l.window_seconds now).2)) ∧
    ((InMemoryRateLimiter.check_limit st (nsKey rt (key_func args))
        l.max_requests l.window_seconds now).1.allowed = false →
      (∀ g : α → Option β,
        RateLimiterService.with_rate_limiting cfg g key_func rt false st args now =
          (.ok none,
           (InMemoryRateLimiter.check_limit st (nsKey rt (key_func args))
             l.max_requests l.window_seconds now).2)) ∧
      (∀ g : α → Option β,
        RateLimiterService.with_rate_limiting cfg g key_func rt true st args now =
          (.error (.rateLimitExceeded
              (InMemoryRateLimiter.check_limit st (nsKey rt (key_func args))
                l.max_requests l.window_seconds now).1.quota),
           (InMemoryRateLimiter.check_limit st (nsKey rt (key_func args))
             l.max_requests l.window_seconds now).2))) :=
  ⟨fun h b => wrapper_allowed cfg func key_func rt l hreg st args now b h,
   fun h => ⟨fun g => wrapper_denied_silent cfg g key_func rt l hreg st args now h,
             fun g => wrapper_denied_raise cfg g key_func rt l hreg st args now h⟩⟩

/-- Witness for C7: with the default `gpt` limits, an allowed call returns the wrapped
function's result, and on an exhausted store the silent mode returns the sentinel. -/
theorem with_rate_limiting_behavior_witness :
    ((InMemoryRateLimiter.check_limit emptyStore
        (nsKey ("gpt".toList) ("u".toList)) 10 60 0).1.allowed = true) ∧
    (RateLimiterService.with_rate_limiting defaultLimits (fun _ : Unit => some (7 : Nat))
        (fun _ => "u".toList) ("gpt".toList) false emptyStore () 0 =
      (.ok (some 7),
       (InMemoryRateLimiter.check_limit emptyStore
         (nsKey ("gpt".toList) ("u".toList)) 10 60 0).2)) ∧
    ((InMemoryRateLimiter.check_limit
        (updateStore emptyStore (compoundKey (nsKey ("gpt".toList) ("u".toList)) 10 60)
          ⟨10, 60⟩)
        (nsKey ("gpt".toList) ("u".toList)) 10 60 0).1.allowed = false) ∧
    (RateLimiterService.with_rate_limiting defaultLimits (fun _ : Unit => some (7 : Nat))
        (fun _ => "u".toList) ("gpt".toList) false
        (updateStore emptyStore (compoundKey (nsKey ("gpt".toList) ("u".toList)) 10 60)
          ⟨10, 60⟩) () 0 =
      (.ok none,
       (InMemoryRateLimiter.check_limit
         (updateStore emptyStore (compoundKey (nsKey ("gpt".toList) ("u".toList)) 10 60)
           ⟨10, 60⟩)
         (nsKey ("gpt".toList) ("u".toList)) 10 60 0).2)) :=
  ⟨by decide,
   (with_rate_limiting_behavior defaultLimits (fun _ : Unit => some (7 : Nat))
     (fun _ => "u".toList) ("gpt".toList) ⟨10, 60⟩ (by decide) emptyStore () 0).1
     (by decide) false,
   by decide,
   ((with_rate_limiting_behavior defaultLimits (fun _ : Unit => some (7 : Nat))
     (fun _ => "u".toList) ("gpt".toList) ⟨10, 60⟩ (by decide)
     (updateStore emptyStore (compoundKey (nsKey ("gpt".toList) ("u".toList)) 10 60)
       ⟨10, 60⟩) () 0).2
     (by decide)).1 (fun _ : Unit => some (7 : Nat))⟩

/-- C10: the denial sentinel is `None`; if the wrapped function itself returns `None`,
the wrapper's value on a denied invocation (silent mode) equals its value on an allowed
invocation — callers cannot tell denial from a legitimate `None` result. -/
theorem denied_sentinel_indistinguishable {α β : Type} (cfg : Config)
    (func : α → Option β) (key_func : α → Str) (rt : Str) (l : Limits)
    (hreg : cfg rt = some l) (args : α) (hfunc : func args = none)
    (st₁ st₂ : Store) (now₁ now₂ : Int)
    (hallow : (InMemoryRateLimiter.check_limit st₁ (nsKey rt (key_func args))
        l.max_requests l.window_seconds now₁).1.allowed = true)
    (hdeny : (InMemoryRateLimiter.check_limit st₂ (nsKey rt (key_func args))
        l.max_requests l.window_seconds now₂).1.allowed = false) :
    (RateLimiterService.with_rate_limiting cfg func key_func rt false st₁ args now₁).1 =
      (RateLimiterService.with_rate_limiting cfg func key_func rt false st₂ args now₂).1 ∧
    (RateLimiterService.with_rate_limiting cfg func key_func rt false st₂ args now₂).1 =
      .ok none := by
  have h1 := wrapper_allowed cfg func key_func rt l hreg st₁ args now₁ false hallow
  have h2 := wrapper_denied_silent cfg func key_func rt l hreg st₂ args now₂ hdeny
  rw [h1, h2, hfunc]
  exact ⟨rfl, rfl⟩

/-- Witness for C10: a function constantly returning `None`, wrapped with the default
`gpt` limits, yields the same `.ok none` whether the call was allowed (fresh store) or
denied (exhausted store). -/
theorem denied_sentinel_indistinguishable_witness :
    ((fun _ : Unit => (none : Option Nat)) () = none) ∧
    (RateLimiterService.with_rate_limiting defaultLimits
        (fun _ : Unit => (none : Option Nat)) (fun _ => "u".toList) ("gpt".toList) false
        emptyStore () 0).1 =
      (RateLimiterService.with_rate_limiting defaultLimits
        (fun _ : Unit => (none : Option Nat)) (fun _ => "u".toList) ("gpt".toList) false
        (updateStore emptyStore (compoundKey (nsKey ("gpt".toList) ("u".toList)) 10 60)
          ⟨10, 60⟩) () 0).1 :=
  ⟨rfl,
   (denied_sentinel_indistinguishable defaultLimits
     (fun _ : Unit => (none : Option Nat)) (fun _ => "u".toList) ("gpt".toList)
     ⟨10, 60⟩ (by decide) () rfl emptyStore
     (updateStore emptyStore (compoundKey (nsKey ("gpt".toList) ("u".toList)) 10 60)
       ⟨10, 60⟩) 0 0 (by decide) (by decide)).1⟩
